import Mathlib

/-!
Verification development for the skill discovery / import / validation /
auto-install pipeline of the SGA-Moltbot repository.

The TypeScript sources embedded here:
  src/agents/skills-import.ts    (locator handling, tree scanning, import engine)
  src/agents/skills-discover.ts  (lexical scoring, ranking, discovery flow)
  src/agents/skills-validate.ts  (validation engine)
  src/gateway/server-methods/skills.ts (auto-install orchestration)

Modelling conventions:
  - Directory trees are the inductive type Dir; a node carries its own name,
    its plain files (name, content) and its subdirectories.
  - Machine reals of the scoring code are embedded as exact rationals.
  - The JS regex character class for word characters under the u flag is
    modelled as: ASCII alphanumeric, or any code point above 0x7f; all
    concrete inputs used in witnesses are ASCII, where this model is exact.
  - External collaborators (the OS filesystem for source resolution, git
    subprocesses, HTTP fetches, the host skill loader, the JSON5 library)
    are passed in as explicit oracle values/functions, mirroring the spec
    section 6 which treats them as consumed interfaces.
-/

/-! ## Generic list helpers (dedup with first-occurrence kept, stable insertion sort) -/

/-- First-occurrence-preserving dedup, the behaviour of iterating a JS Set
built from an array. The accumulator holds the values already seen. -/
def uniqueFirstAux {α : Type} [DecidableEq α] (seen : List α) : List α → List α
  | [] => []
  | x :: rest =>
    if x ∈ seen then uniqueFirstAux seen rest
    else x :: uniqueFirstAux (x :: seen) rest

/-- Dedup keeping first occurrences, as Array.from(new Set(xs)) does. -/
def uniqueFirst {α : Type} [DecidableEq α] (l : List α) : List α :=
  uniqueFirstAux [] l

/-- Insert x into l, after every element y with keep y x, mirroring a stable
comparator-driven sort step. -/
def insertOrdered {α : Type} (keep : α → α → Bool) (x : α) : List α → List α
  | [] => [x]
  | y :: rest => if keep y x then y :: insertOrdered keep x rest else x :: y :: rest

/-- Stable insertion sort: elements are inserted left to right, each placed
after all elements it does not strictly precede, as JS Array.prototype.sort
(stable per the spec) behaves. -/
def sortKeep {α : Type} (keep : α → α → Bool) (l : List α) : List α :=
  l.foldl (fun acc x => insertOrdered keep x acc) []

/-! ## Character/string helpers shared by several modules -/

/-- Whitespace-trim on both ends, the behaviour of String.prototype.trim
restricted to the ASCII whitespace of the inputs we model. -/
def strTrim (s : String) : String :=
  ⟨((s.data.dropWhile Char.isWhitespace).reverse.dropWhile Char.isWhitespace).reverse⟩

/-- Lowercasing character map (exact on the ASCII inputs modelled). -/
def lowerStr (s : String) : String :=
  ⟨s.data.map Char.toLower⟩

/-- Test whether the needle character list occurs at the head of the haystack. -/
def leadMatch : List Char → List Char → Bool
  | [], _ => true
  | _ :: _, [] => false
  | n :: ns, h :: hs => n == h && leadMatch ns hs

/-- Test whether the needle occurs anywhere inside the haystack, the
behaviour of String.prototype.includes. -/
def subMatch (needle : List Char) : List Char → Bool
  | [] => needle.isEmpty
  | h :: hs => leadMatch needle (h :: hs) || subMatch needle hs

/-- JS s.includes(t). -/
def jsIncludes (s t : String) : Bool :=
  subMatch t.data s.data

/-- Lexicographic comparison by code point, the ordering JS applies to
strings (identical to UTF-16 code-unit order on the characters modelled). -/
def charListLe : List Char → List Char → Bool
  | [], _ => true
  | _ :: _, [] => false
  | a :: as, b :: bs => if a == b then charListLe as bs else decide (a.toNat < b.toNat)

def strLeB (a b : String) : Bool :=
  charListLe a.data b.data

/-! ## Filesystem model

A directory node carries its own base name, its plain files as
(file name, content) pairs, and its subdirectories. Paths relative to a
scanned root are lists of directory names. -/

inductive Dir where
  | mk (name : String) (files : List (String × String)) (subdirs : List Dir) : Dir

def Dir.name : Dir → String
  | .mk n _ _ => n

def Dir.files : Dir → List (String × String)
  | .mk _ fs _ => fs

def Dir.subdirs : Dir → List Dir
  | .mk _ _ ds => ds

/-- IMPORT_IGNORED_NAMES of skills-import.ts; DISCOVERY_IGNORED_NAMES of
skills-discover.ts is the identical set. -/
def ignoredNames : List String :=
  [".git", "node_modules", "dist", "build", "out", ".next", ".turbo", ".venv", "venv", ".idea", ".vscode"]

/-- A directory directly contains the manifest file name, the first loop of
collectSkillDirs (entry.isFile() and entry.name === "SKILL.md"). -/
def Dir.hasManifest (d : Dir) : Bool :=
  d.files.any (fun f => f.1 == "SKILL.md")

/-- The recursive walk of collectSkillDirs. The code passes a depth that
starts at 0 and returns when depth is greater than 12; here fuel counts the
remaining levels, so the top call has fuel 13. A directory with the manifest
is recorded (as the relative path of the current node) and the walk then
still recurses into every non-ignored subdirectory, exactly as the source
does: the break in the file loop only ends the file scan. -/
def walkDir : Nat → Dir → List (List String)
  | 0, _ => []
  | fuel + 1, d =>
    (if d.hasManifest then [[]] else []) ++
      (d.subdirs.filter (fun c => !ignoredNames.contains c.name)).flatMap
        (fun c => (walkDir fuel c).map (fun p => c.name :: p))

/-- Render a relative path the way the absolute path strings of the walk
relate to each other under the shared root prefix. -/
def joinPath (p : List String) : String :=
  String.intercalate "/" p

/-- collectSkillDirs: walk from the root with depth 0, collect matches into
a set, return them sorted ([...found].toSorted() sorts the path strings
ascending; under the shared root prefix this is ascending order of the
rendered relative paths). -/
def collectSkillDirs (d : Dir) : List (List String) :=
  sortKeep (fun a b => strLeB (joinPath a) (joinPath b)) (uniqueFirst (walkDir 13 d))

/-- Recursive copy with the fs.cp filter of importSkills below the copied
root: entries (files and directories alike) whose base name is on the ignore
list are not copied. Node's fs.cp also invokes the filter on the top-level
source path itself; that root-level check uses the source path's base name
and is modelled at the call site in importLoop (an ignored root base name
copies nothing at all). -/
def Dir.copyFiltered : Dir → Dir
  | .mk n fs ds =>
    Dir.mk n (fs.filter (fun f => !ignoredNames.contains f.1))
      ((ds.attach.map (fun c => c.1.copyFiltered)).filter
        (fun c => !ignoredNames.contains c.name))
decreasing_by
  have h2 := List.sizeOf_lt_of_mem c.2
  simp at h2 ⊢
  omega

/-- Navigate a relative path; readdir name lookup (names are unique in a
real directory, the first match is taken). -/
def Dir.getSubdir : Dir → List String → Option Dir
  | d, [] => some d
  | d, n :: rest =>
    match d.subdirs.find? (fun c => c.name == n) with
    | none => none
    | some c => c.getSubdir rest

/-- Content of a plain file directly inside the directory. -/
def Dir.readFile (d : Dir) (fname : String) : Option String :=
  (d.files.find? (fun f => f.1 == fname)).map (fun f => f.2)

/-! ## Frontmatter (spec-modelled parser) -/

/-- Modelled from the spec: parseFrontmatter lives in
src/agents/skills/frontmatter.ts, which is not among the provided sources
(only its callers are). Per the spec, section 3, a SkillManifest is a
key-value frontmatter block with at least a declared name. The model: when
the document starts with a line whose trim is "---", the lines up to the
next such line form the block and every "key: value" line (split at the
first colon, key and value trimmed, empty keys dropped) contributes a pair;
a document without a leading block yields no pairs. -/
def splitOnChar (sep : Char) : List Char → List (List Char)
  | [] => [[]]
  | c :: rest =>
    let r := splitOnChar sep rest
    if c == sep then [] :: r
    else
      match r with
      | [] => [[c]]
      | g :: gs => (c :: g) :: gs

def splitFirstAt (sep : Char) : List Char → Option (List Char × List Char)
  | [] => none
  | c :: rest =>
    if c == sep then some ([], rest)
    else (splitFirstAt sep rest).map (fun pr => (c :: pr.1, pr.2))

def parseFrontmatterLine (l : String) : Option (String × String) :=
  (splitFirstAt ':' l.data).bind (fun pr =>
    let k := strTrim ⟨pr.1⟩
    let v := strTrim ⟨pr.2⟩
    if k = "" then none else some (k, v))

def parseFrontmatter (content : String) : List (String × String) :=
  match (splitOnChar '\n' content.data).map (fun cs => (⟨cs⟩ : String)) with
  | [] => []
  | first :: rest =>
    if strTrim first = "---" then
      (rest.takeWhile (fun l => strTrim l ≠ "---")).filterMap parseFrontmatterLine
    else []

def fmLookup (fm : List (String × String)) (key : String) : Option String :=
  (fm.find? (fun kv => kv.1 == key)).map (fun kv => kv.2)

/-- Name extraction of importSkills: fm.name must be a nonempty string after
trimming, otherwise the entry is imported under its directory base name. -/
def frontmatterName (content : String) : Option String :=
  match fmLookup (parseFrontmatter content) "name" with
  | some v => if strTrim v = "" then none else some (strTrim v)
  | none => none

/-! ## sanitizeSkillDirName (skills-import.ts) -/

/-- Replace every maximal run of characters satisfying p by the single
character r, the behaviour of replaceAll with a one-class-plus regex. The
Bool flag tracks whether the previous character was part of a run. -/
def replaceRunsAux (p : Char → Bool) (r : Char) : Bool → List Char → List Char
  | _, [] => []
  | inRun, c :: rest =>
    if p c then
      if inRun then replaceRunsAux p r true rest
      else r :: replaceRunsAux p r true rest
    else c :: replaceRunsAux p r false rest

def replaceRuns (p : Char → Bool) (r : Char) (cs : List Char) : List Char :=
  replaceRunsAux p r false cs

/-- sanitizeSkillDirName: trim; slash/backslash runs to "-"; whitespace runs
to "-"; characters outside ASCII alphanumerics, underscore and hyphen to
"-" one by one; hyphen runs collapsed; leading/trailing hyphens and
underscores stripped; truncated to 64; empty result falls back to "skill". -/
def sanitizeSkillDirName (raw : String) : String :=
  let s1 := (strTrim raw).data
  let s2 := replaceRuns (fun c => c == '/' || c == '\\') '-' s1
  let s3 := replaceRuns Char.isWhitespace '-' s2
  let s4 := s3.map (fun c => if c.isAlphanum || c == '_' || c == '-' then c else '-')
  let s5 := replaceRuns (fun c => c == '-') '-' s4
  let isEdge : Char → Bool := fun c => c == '-' || c == '_'
  let s6 := ((s5.dropWhile isEdge).reverse.dropWhile isEdge).reverse
  let s7 := s6.take 64
  if s7.isEmpty then "skill" else ⟨s7⟩

/-! ## Import engine (importSkills of skills-import.ts)

The locator resolution step (resolveSource) shells out to git and probes the
OS filesystem, both external capabilities per spec section 6; importSkills is
therefore embedded as a function of the resolution outcome. The target
skills directory is modelled as a map from destination directory name to the
directory tree stored there. The per-target-root serialization
(serializeByKey) is a concurrency discipline with no effect on the
single-call semantics embedded here. -/

structure SkillsImportEntry where
  name : Option String
  sourceDir : String
  destDir : String
  skillPath : String
deriving Repr, DecidableEq

structure SkillsImportSkippedEntry where
  sourceDir : String
  reason : String
  message : String
deriving Repr, DecidableEq

structure SkillsImportResult where
  ok : Bool
  message : String
  targetDir : String
  imported : List SkillsImportEntry
  skipped : List SkillsImportSkippedEntry
  warnings : List String
deriving Repr, DecidableEq

def ImportStore : Type := String → Option Dir

/-- Outcome of resolveSource: failure with accumulated warnings (missing
source, unresolvable/unclonable locator), a root path that does not exist on
disk (a subdir applied to a clone can produce this), or a resolved root
directory tree together with its absolute path. -/
inductive ResolveOutcome where
  | failed (warnings : List String)
  | missingRoot (rootPath : String) (warnings : List String)
  | resolved (root : Dir) (rootPath : String) (warnings : List String)

def baseNameOfPath (s : String) : String :=
  match (splitOnChar '/' s.data).map (fun cs => (⟨cs⟩ : String)) with
  | [] => s
  | parts => parts.getLast!

/-- Absolute path of a discovered skill directory. -/
def absSourcePath (rootPath : String) (p : List String) : String :=
  if p.isEmpty then rootPath else rootPath ++ "/" ++ joinPath p

/-- The per-entry loop of importSkills. The accumulator used holds the
destination names added so far (a JS Set: adding an existing name keeps the
size unchanged); imported and skipped grow in scan order; the store is the
content of the target directory. An existing destination is removed before
copying when overwrite is requested, and fs.cp invokes its ignore filter on
the top-level source path first: a source directory whose base name is on
the ignore list is silently not copied, though the entry is still reported
imported. -/
def importLoop (root : Dir) (rootPath targetDir : String) (overwrite : Bool) :
    List (List String) → List String → List SkillsImportEntry →
    List SkillsImportSkippedEntry → ImportStore →
    List SkillsImportEntry × List SkillsImportSkippedEntry × ImportStore
  | [], _, imported, skipped, store => (imported, skipped, store)
  | p :: rest, used, imported, skipped, store =>
    let src := absSourcePath rootPath p
    match (root.getSubdir p).bind (fun sd => (sd.readFile "SKILL.md").map (fun c => (sd, c))) with
    | none =>
      importLoop root rootPath targetDir overwrite rest used imported
        (skipped ++ [⟨src, "invalid-skill", "failed to read SKILL.md"⟩]) store
    | some (sd, content) =>
      let nm := frontmatterName content
      let baseRaw :=
        match p.getLast? with
        | some b => b
        | none => baseNameOfPath rootPath
      let dirNameBase := sanitizeSkillDirName (nm.getD baseRaw)
      let dirName :=
        if used.contains dirNameBase then dirNameBase ++ "-" ++ toString (used.length + 1)
        else dirNameBase
      let used2 := if used.contains dirName then used else dirName :: used
      let destDir := targetDir ++ "/" ++ dirName
      let destExists := (store dirName).isSome
      if destExists && !overwrite then
        importLoop root rootPath targetDir overwrite rest used2 imported
          (skipped ++ [⟨src, "conflict", "destination exists: " ++ destDir⟩]) store
      else
        let storeRm : ImportStore :=
          if destExists && overwrite then fun k => if k = dirName then none else store k
          else store
        let store2 : ImportStore :=
          if ignoredNames.contains baseRaw then storeRm
          else fun k => if k = dirName then some sd.copyFiltered else storeRm k
        importLoop root rootPath targetDir overwrite rest used2
          (imported ++ [⟨nm, src, destDir, destDir ++ "/SKILL.md"⟩]) skipped store2

/-- importSkills. All expected failure modes return a structured result; the
embedding is a total function, mirroring that the source never throws for
them. -/
def importSkills (resolved : ResolveOutcome) (overwrite : Bool)
    (targetDirOpt : Option String) (store : ImportStore) :
    SkillsImportResult × ImportStore :=
  match targetDirOpt with
  | none =>
    ({ ok := false, message := "workspaceDir required when target=workspace", targetDir := ""
       imported := [], skipped := [], warnings := [] }, store)
  | some targetDir =>
    match resolved with
    | .failed warnings =>
      ({ ok := false, message := (warnings.getLast?).getD "failed to resolve source"
         targetDir := targetDir, imported := [], skipped := [], warnings := warnings }, store)
    | .missingRoot rootPath warnings =>
      ({ ok := false, message := "source not found: " ++ rootPath
         targetDir := targetDir, imported := [], skipped := [], warnings := warnings }, store)
    | .resolved root rootPath warnings =>
      let skillDirs := collectSkillDirs root
      if skillDirs.isEmpty then
        ({ ok := false, message := "no SKILL.md found in source"
           targetDir := targetDir, imported := [], skipped := [], warnings := warnings }, store)
      else
        match importLoop root rootPath targetDir overwrite skillDirs [] [] [] store with
        | (imported, skipped, store2) =>
          let ok := decide (0 < imported.length)
          let message :=
            if ok then "Imported " ++ toString imported.length ++ " skill(s) into " ++ targetDir
            else if 0 < skipped.length then "No skills imported (see skipped entries)"
            else "No skills imported"
          ({ ok := ok, message := message, targetDir := targetDir
             imported := imported, skipped := skipped, warnings := warnings }, store2)

/-! ## Discovery engine (skills-discover.ts)

Lexical scoring over exact rationals. The tokenizer's Unicode word class
and lowercasing are modelled on the character model described in the file
header; the JS token arrays produced by match() contain no whitespace, so
the trim/Boolean no-op steps of the source collapse away. -/

def englishStopwords : List String :=
  ["the", "a", "an", "is", "are", "was", "were", "be", "been", "have", "has", "had",
   "do", "does", "did", "will", "would", "to", "of", "in", "for", "on", "with", "at",
   "by", "from", "and", "but", "if", "or", "this", "that", "use", "using", "skill",
   "skills", "claude", "openclaw", "bot", "assistant", "please", "need", "want", "help"]

def isWordChar (c : Char) : Bool :=
  c.isAlphanum || decide (0x7f < c.toNat)

/-- One step of grouping a character list into maximal word-character runs;
the pair holds the token currently being built (to the left) and the tokens
already completed to the right. -/
def splitTokensStep (c : Char) (acc : List Char × List (List Char)) :
    List Char × List (List Char) :=
  if isWordChar c then (c :: acc.1, acc.2)
  else ([], if acc.1.isEmpty then acc.2 else acc.1 :: acc.2)

def splitWordTokens (cs : List Char) : List (List Char) :=
  let r := cs.foldr splitTokensStep ([], [])
  if r.1.isEmpty then r.2 else r.1 :: r.2

/-- tokenize: lowercase, then collect the maximal word-character runs. -/
def tokenize (s : String) : List String :=
  (splitWordTokens (s.data.map Char.toLower)).map (fun cs => (⟨cs⟩ : String))

/-- isMostlyAscii: the proportion of characters above 0x7f in the joined
tokens is below one fifth (exact rational comparison; an empty join counts
as mostly ASCII). -/
def isMostlyAscii (tokens : List String) : Bool :=
  let joined := tokens.flatMap String.data
  if joined.isEmpty then true
  else decide (5 * (joined.filter (fun c => 0x7f < c.toNat)).length < joined.length)

/-- pickQueryTokens: tokenize, drop English stopwords only in ASCII-dominant
mode, dedup keeping first occurrences, stable-sort by length descending,
keep at most max(1, maxTokens) tokens. -/
def pickQueryTokens (prompt : String) (maxTokens : Nat) : List String :=
  let tokens := tokenize prompt
  let asciiMode := isMostlyAscii tokens
  let filtered := tokens.filter (fun t => if asciiMode then !englishStopwords.contains t else true)
  let unique := uniqueFirst filtered
  let sorted := sortKeep (fun a b => decide (b.length ≤ a.length)) unique
  sorted.take (max 1 maxTokens)

structure ScoreParams where
  prompt : String
  name : Option String
  description : Option String
  keywords : Option (List String)

def queryTokensOf (prompt : String) : List String :=
  pickQueryTokens prompt 24

def nameTokensOf (name : Option String) : List String :=
  uniqueFirst (tokenize ⟨(name.getD "").data.map (fun c => if c == '-' then ' ' else c)⟩)

def descTokensOf (description : Option String) : List String :=
  uniqueFirst (tokenize (description.getD ""))

def keywordTokensOf (keywords : Option (List String)) : List String :=
  uniqueFirst ((keywords.getD []).flatMap tokenize)

/-- Count of elements of a also present in b (iteration over the first set
of the source's overlap helper). -/
def overlapCount (a b : List String) : Nat :=
  (a.filter (fun t => b.contains t)).length

/-- Weighted sum before normalization: name overlap over the name token set
size, description and keyword overlaps over the query token set size, with
weights 1.0, 0.7 and 0.5. -/
def rawScore (P : ScoreParams) : ℚ :=
  let q := queryTokensOf P.prompt
  let nt := nameTokensOf P.name
  let nameScore : ℚ := (overlapCount q nt : ℚ) / (max 1 nt.length : ℚ)
  let descScore : ℚ := (overlapCount q (descTokensOf P.description) : ℚ) / (max 1 q.length : ℚ)
  let keywordScore : ℚ := (overlapCount q (keywordTokensOf P.keywords) : ℚ) / (max 1 q.length : ℚ)
  nameScore * 1 + descScore * (7 / 10) + keywordScore * (1 / 2)

def normalizedScore (P : ScoreParams) : ℚ :=
  min (rawScore P / (11 / 5)) 1

/-- The space-joined query token set. -/
def joinedQuery (prompt : String) : String :=
  String.intercalate " " (queryTokensOf prompt)

/-- The normalized candidate name: lowercased, hyphens to spaces, trimmed. -/
def nameNormOf (name : Option String) : String :=
  strTrim ⟨(lowerStr (name.getD "")).data.map (fun c => if c == '-' then ' ' else c)⟩

/-- The bonus condition as the source tests it: the normalized name is
nonempty, and the joined query equals it or contains it as a substring. -/
def bonusApplies (P : ScoreParams) : Bool :=
  let q := joinedQuery P.prompt
  let nn := nameNormOf P.name
  !(nn == "") && (q == nn || jsIncludes q nn)

/-- scoreSkillMatch: zero for an empty query token set; otherwise the
normalized weighted score, with +0.15 capped at 1 when the bonus condition
holds. -/
def scoreSkillMatch (P : ScoreParams) : ℚ :=
  if (queryTokensOf P.prompt).isEmpty then 0
  else if bonusApplies P then min 1 (normalizedScore P + 3 / 20)
  else normalizedScore P

structure SkillPoolEntry where
  name : Option String
  description : Option String
  url : Option String
  keywords : Option (List String)

structure SkillsDiscoverCandidate where
  source : String
  score : ℚ
  provider : String
  reason : String
  skillName : Option String
  description : Option String
deriving Repr, DecidableEq

/-- rankSkillPoolIndex: entries without a nonempty url are dropped, each
remaining entry is scored (name/description trimmed, keywords trimmed and
cleaned), entries under the threshold are dropped, survivors are sorted by
score descending (stable) and truncated to max(1, limit). -/
def rankSkillPoolIndex (prompt : String) (entries : List SkillPoolEntry)
    (limit : Nat) (threshold : ℚ) : List SkillsDiscoverCandidate :=
  let scored := entries.filterMap (fun e =>
    let url := strTrim (e.url.getD "")
    if url = "" then none
    else
      let nm := e.name.map strTrim
      let ds := e.description.map strTrim
      let kws := e.keywords.map (fun ks => (ks.map strTrim).filter (fun k => k ≠ ""))
      let score := scoreSkillMatch ⟨prompt, nm, ds, kws⟩
      if score < threshold then none
      else some ⟨url, score, "skill-pool", "Matched AlataChan/skill-pool index", nm, ds⟩)
  (sortKeep (fun a b => decide (b.score ≤ a.score)) scored).take (max 1 limit)

structure SkillsDiscoverResult where
  ok : Bool
  message : String
  candidates : List SkillsDiscoverCandidate
  warnings : List String
deriving Repr, DecidableEq

inductive DiscoverMode where
  | auto
  | skillPool
  | github
deriving Repr, DecidableEq

/-- Outcome of the skill-pool index HTTP fetch (an external capability). -/
inductive FetchOutcome where
  | ok (entries : List SkillPoolEntry)
  | err (error : String)

/-- The result of a discoverSkills call together with which of the two
remote providers were consulted. -/
structure DiscoverTrace where
  result : SkillsDiscoverResult
  indexConsulted : Bool
  githubConsulted : Bool
deriving Repr

/-- discoverSkills. The skill-pool index fetch and the GitHub
search-and-clone scan are external effects and enter as oracle values: the
fetched index outcome, and the candidate/warning pair that
discoverFromGitHub would produce. The per-(mode, prompt) serialization is a
concurrency discipline with no effect on single-call semantics. -/
def discoverSkills (prompt : String) (limit : Nat) (mode : DiscoverMode)
    (indexFetch : FetchOutcome)
    (githubSearch : List SkillsDiscoverCandidate × List String) : DiscoverTrace :=
  let trimmed := strTrim prompt
  if trimmed = "" then ⟨⟨false, "prompt is required", [], []⟩, false, false⟩
  else
    let lim := max 1 (min 10 limit)
    let thresholdSkillPool : ℚ := 1 / 4
    let runGitHub : Bool → List String → DiscoverTrace := fun idxConsulted warnings0 =>
      let warnings := warnings0 ++ githubSearch.2
      if 0 < githubSearch.1.length then
        ⟨⟨true, "Found " ++ toString githubSearch.1.length ++ " candidate(s) via GitHub",
          githubSearch.1, warnings⟩, idxConsulted, true⟩
      else
        ⟨⟨false, "No candidates found via GitHub", [], warnings⟩, idxConsulted, true⟩
    match mode with
    | .github => runGitHub false []
    | .skillPool =>
      match indexFetch with
      | .ok entries =>
        let ranked := rankSkillPoolIndex trimmed entries lim thresholdSkillPool
        if 0 < ranked.length then
          ⟨⟨true, "Found " ++ toString ranked.length ++ " candidate(s) via skill-pool",
            ranked, []⟩, true, false⟩
        else ⟨⟨false, "No candidates found via skill-pool", [], []⟩, true, false⟩
      | .err e =>
        ⟨⟨false, "No candidates found via skill-pool", [],
          ["skill-pool index fetch failed: " ++ e]⟩, true, false⟩
    | .auto =>
      match indexFetch with
      | .ok entries =>
        let ranked := rankSkillPoolIndex trimmed entries lim thresholdSkillPool
        if 0 < ranked.length then
          ⟨⟨true, "Found " ++ toString ranked.length ++ " candidate(s) via skill-pool",
            ranked, []⟩, true, false⟩
        else runGitHub true []
      | .err e => runGitHub true ["skill-pool index fetch failed: " ++ e]

/-! ## Validation engine (skills-validate.ts)

The host skill loader (loadSkillsFromDir of the pi-coding-agent package,
loadWorkspaceSkillEntries), the eligibility report builder
(buildWorkspaceSkillStatus) and the JSON5 parser are external collaborators
per spec section 6; they enter as oracle values: the host entry list and the
status report are computed once per call in the source and are single
parameters here. -/

structure PiDiagnostic where
  type : String
  message : String
  path : Option String
deriving Repr, DecidableEq

structure PiSkill where
  filePath : String
  name : String
  description : Option String
  source : String
deriving Repr, DecidableEq

structure NormalizedPiLoadResult where
  skills : List PiSkill
  diagnostics : List PiDiagnostic
deriving Repr, DecidableEq

structure SkillEntry where
  skill : PiSkill
deriving Repr, DecidableEq

structure MissingReqs where
  bins : List String
  anyBins : List String
  env : List String
  config : List String
  os : List String
deriving Repr, DecidableEq

structure InstallOption where
  id : String
deriving Repr, DecidableEq

structure SkillStatusEntry where
  name : String
  filePath : String
  eligible : Bool
  missing : MissingReqs
  install : List InstallOption
deriving Repr, DecidableEq

structure MetaInspection where
  present : Bool
  parseOk : Bool
  manifestFound : Bool
  error : Option String
deriving Repr, DecidableEq

/-- Outcome of handing the raw metadata string to the JSON5 library plus the
manifest-key scan over MANIFEST_KEY and LEGACY_MANIFEST_KEYS (both external
to the embedded sources). -/
inductive Json5Outcome where
  | parseError (msg : String)
  | notAnObject
  | object (manifestFound : Bool)

/-- inspectOpenClawMetadata: absence, parse failure, non-object value and
manifest-key presence are tracked independently. -/
def inspectOpenClawMetadata (json5 : String → Json5Outcome)
    (fm : List (String × String)) : MetaInspection :=
  let raw := strTrim ((fmLookup fm "metadata").getD "")
  if raw = "" then ⟨false, true, false, none⟩
  else
    match json5 raw with
    | .parseError m => ⟨true, false, false, some m⟩
    | .notAnObject => ⟨true, false, false, some "metadata must be a JSON object"⟩
    | .object mf => ⟨true, true, mf, none⟩

/-- findAnyNameCollision: the first host entry sharing the trimmed name but
resolving to a different path; a trimmed-empty name never collides. The
returned pair is (winner path, winner source). -/
def findAnyNameCollision (entriesHost : List SkillEntry) (importedPath : String)
    (skillName : String) : Option (String × String) :=
  let nm := strTrim skillName
  if nm = "" then none
  else
    (entriesHost.find? (fun e => e.skill.name == nm && e.skill.filePath != importedPath)).map
      (fun e => (e.skill.filePath, e.skill.source))

def knownBadPatterns : List String :=
  ["description is required", "unknown frontmatter field", "name contains invalid characters",
   "does not match parent directory", "failed to parse"]

/-- Case-insensitive test for the known-bad loader diagnostic patterns. -/
def matchesKnownBad (message : String) : Bool :=
  knownBadPatterns.any (fun pat => jsIncludes (lowerStr message) (lowerStr pat))

/-- shouldRecommendRewrite: reasons accumulate in source order (not loaded;
name collision; unparsable metadata; metadata without manifest key; up to
five deduplicated known-bad diagnostics; missing binaries without a declared
installer), then are trimmed, cleaned of empties and deduplicated; the flag
is their nonemptiness. -/
def shouldRecommendRewrite (loaded : Bool) (diagnostics : List PiDiagnostic)
    (metaInspection : MetaInspection) (status : Option SkillStatusEntry)
    (collision : Option (String × String)) : Bool × List String :=
  let r1 :=
    if !loaded then
      ["Skill not loaded by OpenClaw (likely missing description or invalid frontmatter)."]
    else []
  let r2 :=
    match collision with
    | some c =>
      ["Skill name collides with another loaded skill: " ++ c.2 ++ " (" ++ c.1 ++ ")."]
    | none => []
  let r3 :=
    if metaInspection.present && !metaInspection.parseOk then
      ["Invalid JSON5 in frontmatter metadata: " ++ (metaInspection.error.getD "parse error") ++ "."]
    else []
  let r4 :=
    if metaInspection.present && metaInspection.parseOk && !metaInspection.manifestFound then
      ["Frontmatter metadata is present but does not include an OpenClaw manifest key."]
    else []
  let interesting := (diagnostics.map (fun d => d.message)).filter matchesKnownBad
  let r5 := ((uniqueFirst interesting).take 5).map (fun m => "Agent Skills spec warning: " ++ m)
  let r6 :=
    match status with
    | some st =>
      if !st.eligible && (0 < st.missing.bins.length || 0 < st.missing.anyBins.length)
          && st.install.isEmpty then
        ["Missing required binaries but no installer is declared in OpenClaw metadata."]
      else []
    | none => []
  let unique := uniqueFirst (((r1 ++ r2 ++ r3 ++ r4 ++ r5 ++ r6).map strTrim).filter (fun r => r ≠ ""))
  (!unique.isEmpty, unique)

structure SkillValidationEntry where
  destDir : String
  skillPath : String
  importedName : Option String
  declaredName : Option String
  loadedName : Option String
  description : Option String
  loaded : Bool
  diagnostics : List PiDiagnostic
  metadata : MetaInspection
  status : Option SkillStatusEntry
  ready : Bool
  rewriteRecommended : Bool
  rewriteReasons : List String
deriving Repr, DecidableEq

structure ValidationSummary where
  total : Nat
  loaded : Nat
  ready : Nat
  rewriteRecommended : Nat
deriving Repr, DecidableEq

structure SkillsValidationReport where
  ok : Bool
  message : String
  summary : ValidationSummary
  skills : List SkillValidationEntry
deriving Repr, DecidableEq

/-- Drop a JS-falsy (empty) string, the spread-with-truthiness-guard idiom
used when assembling the validation entry. -/
def dropEmpty (s : Option String) : Option String :=
  match s with
  | some v => if v = "" then none else some v
  | none => none

/-- Validation of one imported entry. -/
def validateOne (readDisk : String → Option String) (entriesHost : List SkillEntry)
    (statusReport : List SkillStatusEntry) (piLoad : String → NormalizedPiLoadResult)
    (json5 : String → Json5Outcome) (imp : SkillsImportEntry) : SkillValidationEntry :=
  match readDisk imp.skillPath with
  | none =>
    { destDir := imp.destDir, skillPath := imp.skillPath, importedName := imp.name
      declaredName := none, loadedName := none, description := none
      loaded := false
      diagnostics := [⟨"error", "Failed to read SKILL.md", some imp.skillPath⟩]
      metadata := ⟨false, true, false, none⟩, status := none, ready := false
      rewriteRecommended := true, rewriteReasons := ["Failed to read SKILL.md."] }
  | some content =>
    let fm := parseFrontmatter content
    let declaredName := (fmLookup fm "name").map strTrim
    let metaInspection := inspectOpenClawMetadata json5 fm
    let piRes := piLoad imp.destDir
    let piDiagnostics := piRes.diagnostics.filter (fun d =>
      match d.path with
      | some p => p == imp.skillPath
      | none => false)
    let piSkill := piRes.skills.find? (fun sk => sk.filePath == imp.skillPath)
    let entry := entriesHost.find? (fun e => e.skill.filePath == imp.skillPath)
    let status := statusReport.find? (fun st => st.filePath == imp.skillPath)
    let loadedNameRaw :=
      match piSkill with
      | some sk => some sk.name
      | none => entry.map (fun e => e.skill.name)
    let collision :=
      match entry, loadedNameRaw with
      | none, some ln => findAnyNameCollision entriesHost imp.skillPath ln
      | _, _ => none
    let loaded := entry.isSome
    let ready := loaded && (match status with | some st => st.eligible | none => false)
    let rw := shouldRecommendRewrite loaded piDiagnostics metaInspection status collision
    { destDir := imp.destDir, skillPath := imp.skillPath, importedName := imp.name
      declaredName := declaredName
      loadedName := dropEmpty loadedNameRaw
      description := dropEmpty (piSkill.bind (fun sk => sk.description))
      loaded := loaded, diagnostics := piDiagnostics, metadata := metaInspection
      status := status, ready := ready
      rewriteRecommended := rw.1, rewriteReasons := rw.2 }

/-- validateImportedSkills. The overall ok requires a nonempty batch in
which every entry is ready. -/
def validateImportedSkills (readDisk : String → Option String)
    (entriesHost : List SkillEntry) (statusReport : List SkillStatusEntry)
    (piLoad : String → NormalizedPiLoadResult) (json5 : String → Json5Outcome)
    (imported : List SkillsImportEntry) : SkillsValidationReport :=
  let validations := imported.map (validateOne readDisk entriesHost statusReport piLoad json5)
  let total := validations.length
  let loadedCount := (validations.filter (fun v => v.loaded)).length
  let readyCount := (validations.filter (fun v => v.ready)).length
  let rewriteCount := (validations.filter (fun v => v.rewriteRecommended)).length
  let ok := decide (0 < total) && decide (readyCount = total)
  let parts := ["Validated " ++ toString total ++ " imported skill(s)"]
    ++ (if readyCount ≠ total then [toString readyCount ++ "/" ++ toString total ++ " ready"] else [])
    ++ (if 0 < rewriteCount then [toString rewriteCount ++ " need rewrite/patch-up"] else [])
  { ok := ok, message := String.intercalate "; " parts
    summary := ⟨total, loadedCount, readyCount, rewriteCount⟩, skills := validations }

/-! ## Auto-install orchestration (skills.import handler of
src/gateway/server-methods/skills.ts)

The installSkill runner is an external capability; the orchestration is
embedded as the list of (skill name, installer id) invocations it issues
plus the sequence of batches handed to the validation engine. -/

/-- First declared installer id with the JS optional-chain default: the
empty string when the list is empty. -/
def firstInstallIdOf (st : SkillStatusEntry) : String :=
  match st.install.head? with
  | some i => i.id
  | none => ""

/-- The continue-chain of the auto-install loop for one validation entry:
skip without a status snapshot, skip when eligible, skip without declared
installers, skip with a missing OS requirement, skip unless some binary is
missing, skip when the first declared installer has a falsy id; otherwise
invoke the first declared installer. -/
def autoInstallDecision (e : SkillValidationEntry) : Option (String × String) :=
  match e.status with
  | none => none
  | some st =>
    if st.eligible then none
    else if st.install.isEmpty then none
    else if !st.missing.os.isEmpty then none
    else if !(decide (0 < st.missing.bins.length) || decide (0 < st.missing.anyBins.length)) then none
    else
      let installId := firstInstallIdOf st
      if installId = "" then none
      else some (st.name, installId)

structure AutoInstallTrace where
  validationCalls : List (List SkillsImportEntry)
  installs : List (String × String)
deriving Repr, DecidableEq

/-- The validation/auto-install part of the skills.import handler: on import
success the imported batch is validated; with autoInstall requested the loop
runs over the validation entries and validation is then re-run once over the
same batch. -/
def skillsImportHandler (importResult : SkillsImportResult) (autoInstall : Bool)
    (validate : List SkillsImportEntry → SkillsValidationReport) : AutoInstallTrace :=
  if importResult.ok then
    let v1 := validate importResult.imported
    if autoInstall then
      { validationCalls := [importResult.imported, importResult.imported]
        installs := v1.skills.filterMap autoInstallDecision }
    else { validationCalls := [importResult.imported], installs := [] }
  else { validationCalls := [], installs := [] }

/-! ## Claim-support definitions and concrete inputs -/

/-- Proper ancestor relation on relative paths: p is a strict ancestor of q
when q descends from p. -/
def properAncestor (p q : List String) : Bool :=
  decide (p.length < q.length) && decide (q.take p.length = p)

/-- Destination directory name a single-skill import derives: the declared
frontmatter name if present, else the source base name, sanitized. -/
def destNameFor (rootPath : String) (content : String) : String :=
  sanitizeSkillDirName ((frontmatterName content).getD (baseNameOfPath rootPath))

/-- A manifest directory with a manifest directory nested inside
node_modules: the inner one must never be surfaced. -/
def vendorNestedDemo : Dir :=
  .mk "root" []
    [.mk "a" [("SKILL.md", "---\nname: a\n---\n")] [],
     .mk "node_modules" [] [.mk "evil" [("SKILL.md", "---\nname: evil\n---\n")] []]]

/-- A manifest directory directly containing a further manifest directory. -/
def nestedDemo : Dir :=
  .mk "root" [("SKILL.md", "outer")] [.mk "sub" [("SKILL.md", "inner")] []]

/-- The empty target store. -/
def emptyStore : ImportStore := fun _ => none

/-- The auto-install precondition as claim C3 words it (following spec
section 4.6): not eligible, at least one declared installer, no missing
OS-level requirement, and missing only binaries, that is, some binary
missing and no missing env or config entries. -/
def specAutoInstallCond (st : SkillStatusEntry) : Prop :=
  st.eligible = false ∧ st.install ≠ [] ∧ st.missing.os = [] ∧
    (st.missing.bins ≠ [] ∨ st.missing.anyBins ≠ []) ∧
    st.missing.env = [] ∧ st.missing.config = []

/-- A status snapshot missing both a binary and an environment variable,
with a declared installer and nothing OS-level missing. -/
def envMissingStatus : SkillStatusEntry :=
  ⟨"x", "t/x/SKILL.md", false, ⟨["jq"], [], ["API_KEY"], [], []⟩, [⟨"brew"⟩]⟩

/-- A validation entry carrying envMissingStatus. -/
def envMissingEntry : SkillValidationEntry :=
  { destDir := "t/x", skillPath := "t/x/SKILL.md", importedName := some "x"
    declaredName := some "x", loadedName := some "x", description := none
    loaded := true, diagnostics := [], metadata := ⟨false, true, false, none⟩
    status := some envMissingStatus, ready := false
    rewriteRecommended := false, rewriteReasons := [] }

/-- Source tree for the destination-name suffix collision: three sibling
skill directories declaring the names x-3, x and x, in scan order. -/
def suffixBugSrc : Dir :=
  .mk "repo" []
    [.mk "a" [("SKILL.md", "---\nname: x-3\n---\n")] [],
     .mk "b" [("SKILL.md", "---\nname: x\n---\n")] [],
     .mk "c" [("SKILL.md", "---\nname: x\n---\n")] []]

/-- Candidate whose name is a proper substring of the single query token. -/
def narrowNameDemo : ScoreParams :=
  ⟨"invoice", some "voice", none, none⟩

/-- The claim C5 bonus condition as the spec words it: the full query token
set is an exact or substring match of the normalized candidate name. -/
def specFullQueryMatchesName (P : ScoreParams) : Prop :=
  joinedQuery P.prompt = nameNormOf P.name ∨
    jsIncludes (nameNormOf P.name) (joinedQuery P.prompt) = true


/-- A local skill directory declaring the name demo. -/
def localSkillDemo : Dir :=
  .mk "myskill" [("SKILL.md", "---\nname: demo\n---\nbody")] []

/-- A local skill directory whose own base name (dist) is on the import
ignore list. -/
def ignoredRootDemo : Dir :=
  .mk "dist" [("SKILL.md", "---\nname: demo\n---\nbody")] []

/-! ## Theorems -/

theorem mem_uniqueFirstAux {α : Type} [DecidableEq α] (a : α) :
    ∀ (l seen : List α), a ∈ uniqueFirstAux seen l ↔ (a ∈ l ∧ a ∉ seen) := by
  intro l
  induction l with
  | nil => intro seen; simp [uniqueFirstAux]
  | cons x rest ih =>
    intro seen
    by_cases hx : x ∈ seen
    · rw [show uniqueFirstAux seen (x :: rest) = uniqueFirstAux seen rest from by
        simp [uniqueFirstAux, hx], ih]
      constructor
      · rintro ⟨h1, h2⟩
        exact ⟨List.mem_cons_of_mem _ h1, h2⟩
      · rintro ⟨h1, h2⟩
        rcases List.mem_cons.mp h1 with rfl | hmem
        · exact absurd hx h2
        · exact ⟨hmem, h2⟩
    · rw [show uniqueFirstAux seen (x :: rest) = x :: uniqueFirstAux (x :: seen) rest from by
        simp [uniqueFirstAux, hx]]
      simp only [List.mem_cons, ih]
      constructor
      · rintro (rfl | ⟨hmem, hns⟩)
        · exact ⟨Or.inl rfl, hx⟩
        · simp only [List.mem_cons, not_or] at hns
          exact ⟨Or.inr hmem, hns.2⟩
      · rintro ⟨hmem | hmem, hns⟩
        · exact Or.inl hmem
        · by_cases hax : a = x
          · exact Or.inl hax
          · exact Or.inr ⟨hmem, by simp only [List.mem_cons, not_or]; exact ⟨hax, hns⟩⟩

theorem mem_uniqueFirst {α : Type} [DecidableEq α] (a : α) (l : List α) :
    a ∈ uniqueFirst l ↔ a ∈ l := by
  simp [uniqueFirst, mem_uniqueFirstAux]

theorem mem_insertOrdered {α : Type} (keep : α → α → Bool) (a x : α) :
    ∀ (l : List α), a ∈ insertOrdered keep x l ↔ (a = x ∨ a ∈ l) := by
  intro l
  induction l with
  | nil => simp [insertOrdered]
  | cons y rest ih =>
    by_cases h : keep y x = true
    · simp only [insertOrdered, if_pos h, List.mem_cons, ih]
      tauto
    · simp only [insertOrdered, if_neg h, List.mem_cons]

theorem foldl_insertOrdered_mem {α : Type} (keep : α → α → Bool) (a : α) :
    ∀ (l acc : List α),
      a ∈ l.foldl (fun acc x => insertOrdered keep x acc) acc ↔ (a ∈ acc ∨ a ∈ l) := by
  intro l
  induction l with
  | nil => intro acc; simp
  | cons x rest ih =>
    intro acc
    rw [List.foldl_cons, ih (insertOrdered keep x acc), mem_insertOrdered keep a x acc]
    simp only [List.mem_cons]
    tauto

theorem mem_sortKeep {α : Type} (keep : α → α → Bool) (a : α) (l : List α) :
    a ∈ sortKeep keep l ↔ a ∈ l := by
  rw [sortKeep, foldl_insertOrdered_mem keep a l []]
  simp

theorem walkDir_no_ignored (fuel : Nat) :
    ∀ (d : Dir) (p : List String), p ∈ walkDir fuel d → ∀ n ∈ p, n ∉ ignoredNames := by
  induction fuel with
  | zero => intro d p hp; simp [walkDir] at hp
  | succ f ih =>
    intro d p hp
    simp only [walkDir, List.mem_append] at hp
    rcases hp with hp | hp
    · by_cases h : d.hasManifest
      · simp only [h, if_true, List.mem_singleton] at hp
        subst hp
        intro n hn
        simp at hn
      · simp [h] at hp
    · rw [List.mem_flatMap] at hp
      obtain ⟨c, hc, hpc⟩ := hp
      rw [List.mem_map] at hpc
      obtain ⟨q, hq, rfl⟩ := hpc
      intro n hn
      rcases List.mem_cons.mp hn with rfl | hn
      · have h2 := (List.mem_filter.mp hc).2
        simpa using h2
      · exact ih c q hq n hn

/-- C8: tree scanning never returns a directory lying weakly below a
directory whose name is on the fixed ignore list: every name component of a
returned relative path avoids the ignore list, for every input tree, so a
manifest directory nested inside an ignored vendor directory is never
surfaced. -/
theorem C8_scan_never_enters_ignored (d : Dir) (p : List String)
    (hp : p ∈ collectSkillDirs d) : ∀ n ∈ p, n ∉ ignoredNames := by
  rw [collectSkillDirs, mem_sortKeep, mem_uniqueFirst] at hp
  exact walkDir_no_ignored 13 d p hp

/-- Witness for C8 at a concrete tree: the surfaced path avoids the ignore
list (and, concretely, the node_modules-nested manifest directory is not in
the scan result at all). -/
theorem C8_scan_never_enters_ignored_witness :
    (["a"] ∈ collectSkillDirs vendorNestedDemo ∧
      (["node_modules", "evil"] ∉ collectSkillDirs vendorNestedDemo)) ∧
    ∀ n ∈ ["a"], n ∉ ignoredNames :=
  ⟨by decide, C8_scan_never_enters_ignored vendorNestedDemo ["a"] (by decide)⟩

/-- C6 fails on the code: the scanner records a directory that directly
contains SKILL.md and then still descends into it, so a returned directory
can be a strict descendant of another returned one; at the concrete nested
tree both the root and its child are returned. -/
theorem C6_counterexample :
    ¬ (∀ p ∈ collectSkillDirs nestedDemo, ∀ q ∈ collectSkillDirs nestedDemo,
        properAncestor p q = false) := by
  intro h
  have := h [] (by decide) ["sub"] (by decide)
  simp [properAncestor] at this

/-- C6 as amended: a directory directly containing the manifest file is
recorded, and the walk still descends into each non-ignored subdirectory
(siblings included), so a matching child of a matching directory is returned
as well. -/
theorem C6_amended_records_and_descends (d c : Dir)
    (hc : c ∈ d.subdirs) (hcn : c.name ∉ ignoredNames)
    (hd : d.hasManifest = true) (hcm : c.hasManifest = true) :
    [] ∈ collectSkillDirs d ∧ [c.name] ∈ collectSkillDirs d := by
  rw [collectSkillDirs, mem_sortKeep, mem_uniqueFirst, mem_sortKeep, mem_uniqueFirst]
  constructor
  · show [] ∈ walkDir 13 d
    simp only [walkDir, hd, if_true, List.mem_append]
    exact Or.inl (List.mem_singleton.mpr rfl)
  · show [c.name] ∈ walkDir 13 d
    simp only [walkDir, List.mem_append]
    refine Or.inr ?_
    rw [List.mem_flatMap]
    refine ⟨c, ?_, ?_⟩
    · rw [List.mem_filter]
      refine ⟨hc, ?_⟩
      simpa using hcn
    · rw [List.mem_map]
      refine ⟨[], ?_, rfl⟩
      simp only [walkDir, hcm, if_true, List.mem_append]
      exact Or.inl (List.mem_singleton.mpr rfl)

/-- Witness for the amended C6 at the concrete nested tree. -/
theorem C6_amended_records_and_descends_witness :
    [] ∈ collectSkillDirs nestedDemo ∧ ["sub"] ∈ collectSkillDirs nestedDemo :=
  C6_amended_records_and_descends nestedDemo (.mk "sub" [("SKILL.md", "inner")] [])
    (by simp [nestedDemo, Dir.subdirs]) (by decide) (by decide) (by decide)

/-- C9: importSkills reports ok exactly when at least one entry was
imported; every expected failure mode (missing target directory, failed or
missing resolution, no manifest found) and every zero-import run returns a
structured result with ok false, and the embedding is a total function,
mirroring that the source throws for none of them. -/
theorem C9_ok_iff_some_imported (resolved : ResolveOutcome) (overwrite : Bool)
    (targetDirOpt : Option String) (store : ImportStore) :
    (importSkills resolved overwrite targetDirOpt store).1.ok = true ↔
      (importSkills resolved overwrite targetDirOpt store).1.imported ≠ [] := by
  cases targetDirOpt with
  | none => simp [importSkills]
  | some td =>
    cases resolved with
    | failed w => simp [importSkills]
    | missingRoot rp w => simp [importSkills]
    | resolved root rp w =>
      by_cases h : (collectSkillDirs root).isEmpty
      · simp [importSkills, h]
      · simp only [importSkills, h, Bool.false_eq_true, if_false]
        rw [decide_eq_true_iff, List.length_pos]

/-- C10: a prompt that is empty or all whitespace makes discoverSkills
return the fixed failure result with the message prompt is required and
empty candidate and warning lists, without consulting the curated index or
the code-search provider. -/
theorem C10_blank_prompt (prompt : String) (limit : Nat) (mode : DiscoverMode)
    (indexFetch : FetchOutcome) (githubSearch : List SkillsDiscoverCandidate × List String)
    (h : strTrim prompt = "") :
    discoverSkills prompt limit mode indexFetch githubSearch =
      ⟨⟨false, "prompt is required", [], []⟩, false, false⟩ := by
  simp [discoverSkills, h]

/-- Witness for C10 at a concrete all-whitespace prompt. -/
theorem C10_blank_prompt_witness :
    discoverSkills " \t " 5 .auto (.ok []) ([], []) =
      ⟨⟨false, "prompt is required", [], []⟩, false, false⟩ :=
  C10_blank_prompt " \t " 5 .auto (.ok []) ([], []) (by decide)

/-- C7 fails on the code (the spec states its intent): with batch names
x-3, x, x the third entry gets the suffixed name x-3, which the first entry
already received, so without overwrite it conflicts against its own batch
sibling, and with overwrite it silently replaces the sibling. -/
theorem C7_suffix_collision :
    ((importSkills (.resolved suffixBugSrc "/src" []) false (some "t") emptyStore).1.imported.map
        (fun e => e.destDir) = ["t/x-3", "t/x"] ∧
      (importSkills (.resolved suffixBugSrc "/src" []) false (some "t") emptyStore).1.skipped.map
        (fun e => e.reason) = ["conflict"]) ∧
    (importSkills (.resolved suffixBugSrc "/src" []) true (some "t") emptyStore).1.imported.map
        (fun e => e.destDir) = ["t/x-3", "t/x", "t/x-3"] := by
  decide

/-- C3 as amended: with auto-install enabled on a successful import, the
installer loop invokes the first declared installer exactly once for each
entry whose status snapshot is not eligible, declares at least one installer
whose first id is nonempty, has no missing OS requirement and misses at
least one binary (missing env or config entries do not prevent invocation),
and validation is then re-run exactly once over the same imported batch. -/
theorem C3_amended_autoinstall :
    (∀ e : SkillValidationEntry, e.status = none → autoInstallDecision e = none) ∧
    (∀ (e : SkillValidationEntry) (st : SkillStatusEntry), e.status = some st →
      (((autoInstallDecision e).isSome = true) ↔
        (st.eligible = false ∧ st.install ≠ [] ∧ st.missing.os = [] ∧
          (st.missing.bins ≠ [] ∨ st.missing.anyBins ≠ []) ∧ firstInstallIdOf st ≠ ""))) ∧
    (∀ (e : SkillValidationEntry) (st : SkillStatusEntry) (x : String × String),
      e.status = some st → autoInstallDecision e = some x → x = (st.name, firstInstallIdOf st)) ∧
    (∀ (importResult : SkillsImportResult)
        (validate : List SkillsImportEntry → SkillsValidationReport),
      importResult.ok = true →
        skillsImportHandler importResult true validate =
          { validationCalls := [importResult.imported, importResult.imported]
            installs := (validate importResult.imported).skills.filterMap autoInstallDecision }) := by
  refine ⟨?_, ?_, ?_, ?_⟩
  · intro e h
    simp [autoInstallDecision, h]
  · intro e st h
    simp only [autoInstallDecision, h]
    split_ifs with h1 h2 h3 h4 h5 <;>
      (simp_all [List.isEmpty_iff, List.length_pos, firstInstallIdOf]; try tauto)
  · intro e st x h hx
    simp only [autoInstallDecision, h] at hx
    split_ifs at hx
    simp_all
  · intro importResult validate hok
    simp [skillsImportHandler, hok]

/-- Witness for the amended C3: the concrete entry missing a binary (and an
env variable) with a declared installer is invoked, and a successful import
with auto-install re-validates the same batch once. -/
theorem C3_amended_autoinstall_witness :
    ((autoInstallDecision envMissingEntry).isSome = true) ∧
    skillsImportHandler ⟨true, "ok", "t", [], [], []⟩ true
        (fun _ => ⟨false, "none", ⟨0, 0, 0, 0⟩, []⟩) =
      { validationCalls := [([] : List SkillsImportEntry), []]
        installs := (⟨false, "none", ⟨0, 0, 0, 0⟩,
          ([] : List SkillValidationEntry)⟩ : SkillsValidationReport).skills.filterMap
            autoInstallDecision } :=
  ⟨(C3_amended_autoinstall.2.1 envMissingEntry envMissingStatus rfl).mpr (by decide),
   C3_amended_autoinstall.2.2.2 ⟨true, "ok", "t", [], [], []⟩
     (fun _ => ⟨false, "none", ⟨0, 0, 0, 0⟩, []⟩) rfl⟩

/-- C3 fails as stated: the loop never consults the missing env or config
lists, so an entry missing both a binary and an env variable is still
auto-installed, while the claim's missing-only-binaries condition excludes
it. -/
theorem C3_counterexample :
    autoInstallDecision envMissingEntry = some ("x", "brew") ∧
    envMissingStatus.missing.env ≠ [] ∧
    ¬ (((autoInstallDecision envMissingEntry).isSome = true) ↔
        specAutoInstallCond envMissingStatus) := by
  refine ⟨by decide, by decide, ?_⟩
  intro hiff
  have hc : specAutoInstallCond envMissingStatus := hiff.mp (by decide)
  exact absurd hc.2.2.2.2.1 (by decide)

theorem filter_length_eq_iff_all {α : Type} (p : α → Bool) (l : List α) :
    ((l.filter p).length = l.length) ↔ ∀ a ∈ l, p a := by
  induction l with
  | nil => simp
  | cons x rest ih =>
    by_cases hx : p x
    · simp [hx, ih]
    · have hle := List.length_filter_le p rest
      simp only [List.filter_cons, hx, Bool.false_eq_true, if_false, List.length_cons]
      constructor
      · intro hlen
        exfalso
        omega
      · intro hall
        exact absurd (hall x (List.mem_cons_self x rest)) (by simp [hx])

theorem validateOne_ready (readDisk : String → Option String) (entriesHost : List SkillEntry)
    (statusReport : List SkillStatusEntry) (piLoad : String → NormalizedPiLoadResult)
    (json5 : String → Json5Outcome) (imp : SkillsImportEntry) :
    ((validateOne readDisk entriesHost statusReport piLoad json5 imp).ready = true) ↔
      ((validateOne readDisk entriesHost statusReport piLoad json5 imp).loaded = true ∧
        ∃ st, (validateOne readDisk entriesHost statusReport piLoad json5 imp).status = some st ∧
          st.eligible = true) := by
  unfold validateOne
  cases hrd : readDisk imp.skillPath with
  | none => simp
  | some content =>
    rcases hst : statusReport.find? (fun st => st.filePath == imp.skillPath) with _ | st
    · simp [hst]
    · simp [hst, Bool.and_eq_true]

/-- C4 as amended: the validation report's ok is true exactly when the
imported batch is nonempty and every entry is ready, and an entry is ready
exactly when the host loader accepted it and its status snapshot exists and
reports eligible (the claim as stated fails only on the empty batch, where
the all-ready condition is vacuous but ok is false). -/
theorem C4_amended_ok_iff (readDisk : String → Option String) (entriesHost : List SkillEntry)
    (statusReport : List SkillStatusEntry) (piLoad : String → NormalizedPiLoadResult)
    (json5 : String → Json5Outcome) (imported : List SkillsImportEntry) :
    (((validateImportedSkills readDisk entriesHost statusReport piLoad json5 imported).ok = true) ↔
      ((validateImportedSkills readDisk entriesHost statusReport piLoad json5 imported).skills ≠ [] ∧
        ∀ v ∈ (validateImportedSkills readDisk entriesHost statusReport piLoad json5 imported).skills,
          v.ready = true)) ∧
    (∀ v ∈ (validateImportedSkills readDisk entriesHost statusReport piLoad json5 imported).skills,
      (v.ready = true ↔ (v.loaded = true ∧ ∃ st, v.status = some st ∧ st.eligible = true))) := by
  constructor
  · simp only [validateImportedSkills, Bool.and_eq_true, decide_eq_true_iff]
    rw [filter_length_eq_iff_all]
    rw [List.length_pos]
  · intro v hv
    simp only [validateImportedSkills, List.mem_map] at hv
    obtain ⟨imp, _, rfl⟩ := hv
    exact validateOne_ready readDisk entriesHost statusReport piLoad json5 imp

/-- C4 fails as stated on the empty batch: with no imported entries every
entry is vacuously ready, yet the report's ok is false because the source
additionally requires a nonempty batch. -/
theorem C4_counterexample :
    ¬ (((validateImportedSkills (fun _ => none) [] [] (fun _ => ⟨[], []⟩)
          (fun _ => .notAnObject) []).ok = true) ↔
        (∀ v ∈ (validateImportedSkills (fun _ => none) [] [] (fun _ => ⟨[], []⟩)
            (fun _ => .notAnObject) []).skills, v.ready = true)) := by
  intro h
  have hok := h.mpr (by
    intro v hv
    simp [validateImportedSkills] at hv)
  simp [validateImportedSkills] at hok

theorem importLoop_single (src : Dir) (rootPath targetDir : String) (overwrite : Bool)
    (store : ImportStore) (content : String)
    (hread : src.readFile "SKILL.md" = some content)
    (hroot : baseNameOfPath rootPath ∉ ignoredNames) :
    importLoop src rootPath targetDir overwrite [[]] [] [] [] store =
      (if (store (destNameFor rootPath content)).isSome && !overwrite then
        ([], [⟨rootPath, "conflict",
          "destination exists: " ++ (targetDir ++ "/" ++ destNameFor rootPath content)⟩], store)
      else
        ([⟨frontmatterName content, rootPath,
           targetDir ++ "/" ++ destNameFor rootPath content,
           targetDir ++ "/" ++ destNameFor rootPath content ++ "/SKILL.md"⟩], [],
         fun k => if k = destNameFor rootPath content then some src.copyFiltered else store k)) := by
  have hsub : (Dir.getSubdir src []).bind
      (fun sd => (sd.readFile "SKILL.md").map (fun c => (sd, c))) = some (src, content) := by
    simp [Dir.getSubdir, hread]
  simp only [importLoop, hsub]
  simp [absSourcePath, destNameFor, hroot]
  split_ifs with h h2
  · rfl
  · refine congrArg _ (congrArg _ ?_)
    funext k
    by_cases hk : k = sanitizeSkillDirName ((frontmatterName content).getD (baseNameOfPath rootPath))
    · simp [hk]
    · simp [hk]
  · rfl

/-- C1 as amended: importing a single local skill directory whose base name
is not on the import ignore list into a target whose store does not yet hold
its destination name succeeds with exactly one imported entry and installs
the filtered copy; importing it again without overwrite fails with exactly
one skipped entry whose reason is conflict and leaves the store untouched;
importing with overwrite into any store already holding the destination name
(whatever its content) succeeds again and replaces the destination with the
filtered copy of the source. (The base-name restriction is forced: fs.cp
runs its ignore filter on the top-level source path too, so an ignored
source base name copies nothing and a second call finds no conflict.) -/
theorem C1_import_twice_then_overwrite
    (src : Dir) (rootPath targetDir : String) (store0 : ImportStore) (content : String)
    (hdirs : collectSkillDirs src = [[]])
    (hread : src.readFile "SKILL.md" = some content)
    (hfree : store0 (destNameFor rootPath content) = none)
    (hroot : baseNameOfPath rootPath ∉ ignoredNames) :
    ((importSkills (.resolved src rootPath []) false (some targetDir) store0).1.ok = true ∧
     (importSkills (.resolved src rootPath []) false (some targetDir) store0).1.imported.length = 1 ∧
     (importSkills (.resolved src rootPath []) false (some targetDir) store0).1.skipped = [] ∧
     (importSkills (.resolved src rootPath []) false (some targetDir) store0).2
        (destNameFor rootPath content) = some src.copyFiltered) ∧
    ((importSkills (.resolved src rootPath []) false (some targetDir)
        (importSkills (.resolved src rootPath []) false (some targetDir) store0).2).1.ok = false ∧
     (importSkills (.resolved src rootPath []) false (some targetDir)
        (importSkills (.resolved src rootPath []) false (some targetDir) store0).2).1.imported = [] ∧
     (importSkills (.resolved src rootPath []) false (some targetDir)
        (importSkills (.resolved src rootPath []) false (some targetDir) store0).2).1.skipped.map
          (fun s => s.reason) = ["conflict"] ∧
     (importSkills (.resolved src rootPath []) false (some targetDir)
        (importSkills (.resolved src rootPath []) false (some targetDir) store0).2).2 =
       (importSkills (.resolved src rootPath []) false (some targetDir) store0).2) ∧
    (∀ (stOcc : ImportStore) (c : Dir), stOcc (destNameFor rootPath content) = some c →
      ((importSkills (.resolved src rootPath []) true (some targetDir) stOcc).1.ok = true ∧
       (importSkills (.resolved src rootPath []) true (some targetDir) stOcc).1.imported.length = 1 ∧
       (importSkills (.resolved src rootPath []) true (some targetDir) stOcc).2
          (destNameFor rootPath content) = some src.copyFiltered)) := by
  have h1 := importLoop_single src rootPath targetDir false store0 content hread hroot
  rw [hfree] at h1
  simp only [Option.isSome_none, Bool.false_and, Bool.false_eq_true, if_false] at h1
  have hstore1 : (importSkills (.resolved src rootPath []) false (some targetDir) store0).2 =
      (fun k => if k = destNameFor rootPath content then some src.copyFiltered else store0 k) := by
    simp [importSkills, hdirs, h1]
  refine ⟨?_, ?_, ?_⟩
  · refine ⟨?_, ?_, ?_, ?_⟩ <;> simp [importSkills, hdirs, h1]
  · have h2 := importLoop_single src rootPath targetDir false
      (importSkills (.resolved src rootPath []) false (some targetDir) store0).2 content hread hroot
    rw [hstore1] at h2
    simp only [if_pos rfl, Option.isSome_some, Bool.true_and, Bool.not_false, if_true] at h2
    rw [hstore1]
    refine ⟨?_, ?_, ?_, ?_⟩ <;> simp [importSkills, hdirs, h2, hstore1]
  · intro stOcc c hc
    have h3 := importLoop_single src rootPath targetDir true stOcc content hread hroot
    rw [hc] at h3
    simp only [Option.isSome_some, Bool.not_true, Bool.and_false, Bool.false_eq_true, if_false] at h3
    refine ⟨?_, ?_, ?_⟩ <;> simp [importSkills, hdirs, h3]

/-- Witness for C1 at a concrete local skill directory and an empty target
store: first run ok, repeat run skipped as a conflict, overwrite run ok
again. -/
theorem C1_import_twice_then_overwrite_witness :
    (importSkills (.resolved localSkillDemo "/tmp/src" []) false (some "ws/skills")
        emptyStore).1.ok = true ∧
    (importSkills (.resolved localSkillDemo "/tmp/src" []) false (some "ws/skills")
        (importSkills (.resolved localSkillDemo "/tmp/src" []) false (some "ws/skills")
          emptyStore).2).1.skipped.map (fun s => s.reason) = ["conflict"] ∧
    (importSkills (.resolved localSkillDemo "/tmp/src" []) true (some "ws/skills")
        (importSkills (.resolved localSkillDemo "/tmp/src" []) false (some "ws/skills")
          emptyStore).2).1.ok = true :=
  have h := C1_import_twice_then_overwrite localSkillDemo "/tmp/src" "ws/skills" emptyStore
    "---\nname: demo\n---\nbody" (by decide) (by decide) rfl (by decide)
  ⟨h.1.1, h.2.1.2.2.1, (h.2.2 _ localSkillDemo.copyFiltered h.1.2.2.2).1⟩

theorem rawScore_nonneg (P : ScoreParams) : 0 ≤ rawScore P := by
  unfold rawScore
  positivity

theorem normalizedScore_nonneg (P : ScoreParams) : 0 ≤ normalizedScore P := by
  unfold normalizedScore
  exact le_min (div_nonneg (rawScore_nonneg P) (by norm_num)) zero_le_one

theorem normalizedScore_le_one (P : ScoreParams) : normalizedScore P ≤ 1 :=
  min_le_right _ _

theorem scoreSkillMatch_bounds (P : ScoreParams) :
    0 ≤ scoreSkillMatch P ∧ scoreSkillMatch P ≤ 1 := by
  unfold scoreSkillMatch
  split_ifs with h1 h2
  · exact ⟨le_refl 0, zero_le_one⟩
  · constructor
    · exact le_min zero_le_one (by have := normalizedScore_nonneg P; linarith)
    · exact min_le_left _ _
  · exact ⟨normalizedScore_nonneg P, normalizedScore_le_one P⟩

theorem splitTokensStep_replaceHyphen (c : Char) (acc : List Char × List (List Char)) :
    splitTokensStep (Char.toLower (if c == '-' then ' ' else c)) acc =
      splitTokensStep (Char.toLower c) acc := by
  by_cases hc : c = '-'
  · subst hc
    rfl
  · rw [show (if c == '-' then ' ' else c) = c from by simp [hc]]

theorem foldr_splitTokensStep_map (f g : Char → Char)
    (hfg : ∀ c acc, splitTokensStep (f c) acc = splitTokensStep (g c) acc) :
    ∀ (l : List Char),
      (l.map f).foldr splitTokensStep ([], []) = (l.map g).foldr splitTokensStep ([], []) := by
  intro l
  induction l with
  | nil => rfl
  | cons c rest ih => simp only [List.map_cons, List.foldr_cons, ih, hfg]

theorem tokenize_replaceHyphens (s : String) :
    tokenize ⟨s.data.map (fun c => if c == '-' then ' ' else c)⟩ = tokenize s := by
  unfold tokenize splitWordTokens
  rw [show (String.mk (s.data.map (fun c => if c == '-' then ' ' else c))).data =
      s.data.map (fun c => if c == '-' then ' ' else c) from rfl]
  rw [List.map_map]
  rw [foldr_splitTokensStep_map (Char.toLower ∘ (fun c => if c == '-' then ' ' else c))
    Char.toLower (fun c acc => splitTokensStep_replaceHyphen c acc) s.data]

theorem queryTokens_subset_tokenize (prompt : String) (k : Nat) (t : String)
    (ht : t ∈ pickQueryTokens prompt k) : t ∈ tokenize prompt := by
  unfold pickQueryTokens at ht
  have h1 := List.take_subset _ _ ht
  rw [mem_sortKeep, mem_uniqueFirst] at h1
  exact (List.mem_filter.mp h1).1

theorem overlap_query_name_self (prompt : String) :
    overlapCount (queryTokensOf prompt) (nameTokensOf (some prompt)) =
      (queryTokensOf prompt).length := by
  unfold overlapCount
  apply (filter_length_eq_iff_all _ _).mpr
  intro t ht
  have h1 : t ∈ tokenize prompt := queryTokens_subset_tokenize prompt 24 t ht
  have h2 : t ∈ nameTokensOf (some prompt) := by
    unfold nameTokensOf
    rw [mem_uniqueFirst]
    simp only [Option.getD_some]
    rw [tokenize_replaceHyphens prompt]
    exact h1
  simpa using h2

/-- C2 as amended: when the prompt yields at least one query token, a
candidate whose name is exactly the prompt strictly outscores any candidate
unrelated to it, where unrelated means zero token overlap with the query on
name, description and keywords and no bonus condition; and every score lies
in the closed unit interval (the claim as stated fails only for prompts
whose tokens are all stopwords, where the query token set is empty and both
scores are zero). -/
theorem C2_exact_match_beats_unrelated (prompt : String)
    (dE : Option String) (kE : Option (List String))
    (nmU dU : Option String) (kU : Option (List String))
    (hq : queryTokensOf prompt ≠ [])
    (hn : overlapCount (queryTokensOf prompt) (nameTokensOf nmU) = 0)
    (hd : overlapCount (queryTokensOf prompt) (descTokensOf dU) = 0)
    (hk : overlapCount (queryTokensOf prompt) (keywordTokensOf kU) = 0)
    (hb : bonusApplies ⟨prompt, nmU, dU, kU⟩ = false) :
    scoreSkillMatch ⟨prompt, some prompt, dE, kE⟩ > scoreSkillMatch ⟨prompt, nmU, dU, kU⟩ ∧
      ∀ P : ScoreParams, 0 ≤ scoreSkillMatch P ∧ scoreSkillMatch P ≤ 1 := by
  have hqe : (queryTokensOf prompt).isEmpty = false := by
    simpa [List.isEmpty_iff] using hq
  constructor
  · have hrawU : rawScore ⟨prompt, nmU, dU, kU⟩ = 0 := by
      unfold rawScore
      simp only [hn, hd, hk]
      norm_num
    have hnormU : normalizedScore ⟨prompt, nmU, dU, kU⟩ = 0 := by
      rw [normalizedScore, hrawU]
      norm_num
    have hscU : scoreSkillMatch ⟨prompt, nmU, dU, kU⟩ = 0 := by
      rw [scoreSkillMatch]
      simp [hqe, hb, hnormU]
    have hqlen : 0 < (queryTokensOf prompt).length := List.length_pos.mpr hq
    have hnamePos : (0 : ℚ) <
        (overlapCount (queryTokensOf prompt) (nameTokensOf (some prompt)) : ℚ) /
          (max 1 ((nameTokensOf (some prompt)).length : ℚ)) := by
      apply div_pos
      · rw [overlap_query_name_self]
        exact_mod_cast hqlen
      · exact lt_max_of_lt_left one_pos
    have hrawE : 0 < rawScore ⟨prompt, some prompt, dE, kE⟩ := by
      unfold rawScore
      have hdE : (0 : ℚ) ≤
          (overlapCount (queryTokensOf prompt) (descTokensOf dE) : ℚ) /
            (max 1 ((queryTokensOf prompt).length : ℚ)) := by positivity
      have hkE : (0 : ℚ) ≤
          (overlapCount (queryTokensOf prompt) (keywordTokensOf kE) : ℚ) /
            (max 1 ((queryTokensOf prompt).length : ℚ)) := by positivity
      simp only []
      nlinarith [hnamePos, hdE, hkE]
    have hnormE : 0 < normalizedScore ⟨prompt, some prompt, dE, kE⟩ := by
      rw [normalizedScore]
      exact lt_min (div_pos hrawE (by norm_num)) one_pos
    have hscE : 0 < scoreSkillMatch ⟨prompt, some prompt, dE, kE⟩ := by
      rw [scoreSkillMatch]
      simp only [hqe, Bool.false_eq_true, if_false]
      split_ifs
      · exact lt_min one_pos (by linarith)
      · exact hnormE
    rw [hscU]
    exact hscE
  · intro P
    exact scoreSkillMatch_bounds P

/-- Witness for the amended C2: the prompt parse invoices, an exact-name
candidate, and the unrelated candidate zzz. -/
theorem C2_exact_match_beats_unrelated_witness :
    scoreSkillMatch ⟨"parse invoices", some "parse invoices", none, none⟩ >
        scoreSkillMatch ⟨"parse invoices", some "zzz", none, none⟩ ∧
      ∀ P : ScoreParams, 0 ≤ scoreSkillMatch P ∧ scoreSkillMatch P ≤ 1 :=
  C2_exact_match_beats_unrelated "parse invoices" none none (some "zzz") none none
    (by decide) (by decide) (by decide) (by decide) (by decide)

/-- C2 fails as stated: for the prompt skill, a stopword, the query token
set is empty, both the exact-name candidate and the unrelated candidate
score zero, and the strict inequality fails. -/
theorem C2_counterexample :
    ¬ (scoreSkillMatch ⟨"skill", some "skill", none, none⟩ >
        scoreSkillMatch ⟨"skill", some "zzz", none, none⟩) := by
  have h1 : (queryTokensOf "skill").isEmpty = true := by decide
  rw [scoreSkillMatch, scoreSkillMatch]
  simp [h1]

/-- C5 as amended: for a nonempty query token set the bonus of +0.15 capped
at 1 is applied exactly when the normalized candidate name is nonempty and
equals, or occurs as a substring inside, the space-joined query token
string; in every other case the normalized weighted score is returned
unchanged. (As stated the claim has the substring direction reversed: the
code tests whether the name occurs inside the query, not whether the query
occurs inside the name.) -/
theorem C5_bonus_characterization (P : ScoreParams) (hq : queryTokensOf P.prompt ≠ []) :
    (bonusApplies P = true → scoreSkillMatch P = min 1 (normalizedScore P + 3 / 20)) ∧
    (bonusApplies P = false → scoreSkillMatch P = normalizedScore P) ∧
    (bonusApplies P = true ↔
      (nameNormOf P.name ≠ "" ∧
        (joinedQuery P.prompt = nameNormOf P.name ∨
          jsIncludes (joinedQuery P.prompt) (nameNormOf P.name) = true))) := by
  have hqe : (queryTokensOf P.prompt).isEmpty = false := by
    simpa [List.isEmpty_iff] using hq
  refine ⟨?_, ?_, ?_⟩
  · intro hb
    rw [scoreSkillMatch]
    simp [hqe, hb]
  · intro hb
    rw [scoreSkillMatch]
    simp [hqe, hb]
  · unfold bonusApplies
    simp only [Bool.and_eq_true, Bool.or_eq_true, Bool.not_eq_true', beq_eq_false_iff_ne,
      ne_eq, beq_iff_eq]

/-- Witness for the amended C5: the prompt pay with the exact name pay takes
the capped bonus branch. -/
theorem C5_bonus_characterization_witness :
    (queryTokensOf "pay" ≠ []) ∧
    ((bonusApplies ⟨"pay", some "pay", none, none⟩ = true →
        scoreSkillMatch ⟨"pay", some "pay", none, none⟩ =
          min 1 (normalizedScore ⟨"pay", some "pay", none, none⟩ + 3 / 20)) ∧
      (bonusApplies ⟨"pay", some "pay", none, none⟩ = false →
        scoreSkillMatch ⟨"pay", some "pay", none, none⟩ =
          normalizedScore ⟨"pay", some "pay", none, none⟩) ∧
      (bonusApplies ⟨"pay", some "pay", none, none⟩ = true ↔
        (nameNormOf (some "pay") ≠ "" ∧
          (joinedQuery "pay" = nameNormOf (some "pay") ∨
            jsIncludes (joinedQuery "pay") (nameNormOf (some "pay")) = true)))) :=
  ⟨by decide, C5_bonus_characterization ⟨"pay", some "pay", none, none⟩ (by decide)⟩

/-- C5 fails as stated: for the prompt invoice and the candidate name voice
the full query token set is neither equal to nor a substring of the
normalized name, yet the source applies the bonus, because it tests the
opposite containment (name inside query), so the returned score differs
from the normalized weighted score. -/
theorem C5_counterexample :
    ¬ specFullQueryMatchesName narrowNameDemo ∧
      scoreSkillMatch narrowNameDemo ≠ normalizedScore narrowNameDemo := by
  constructor
  · unfold specFullQueryMatchesName
    decide
  · have h1 : overlapCount (queryTokensOf narrowNameDemo.prompt)
        (nameTokensOf narrowNameDemo.name) = 0 := by decide
    have h2 : overlapCount (queryTokensOf narrowNameDemo.prompt)
        (descTokensOf narrowNameDemo.description) = 0 := by decide
    have h3 : overlapCount (queryTokensOf narrowNameDemo.prompt)
        (keywordTokensOf narrowNameDemo.keywords) = 0 := by decide
    have hraw : rawScore narrowNameDemo = 0 := by
      unfold rawScore
      simp only [h1, h2, h3]
      norm_num
    have hnorm : normalizedScore narrowNameDemo = 0 := by
      rw [normalizedScore, hraw]
      norm_num
    have hqe : (queryTokensOf narrowNameDemo.prompt).isEmpty = false := by decide
    have hb : bonusApplies narrowNameDemo = true := by decide
    have hsc : scoreSkillMatch narrowNameDemo = min 1 (0 + 3 / 20) := by
      rw [scoreSkillMatch, hqe, hnorm]
      simp [hb]
    rw [hsc, hnorm]
    norm_num

/-- Witness for the amended C4 at a concrete one-entry batch with trivial
oracles. -/
theorem C4_amended_ok_iff_witness :
    ((validateImportedSkills (fun _ => none) [] [] (fun _ => ⟨[], []⟩) (fun _ => .notAnObject)
        [⟨some "demo", "/s", "t/demo", "t/demo/SKILL.md"⟩]).ok = true) ↔
      ((validateImportedSkills (fun _ => none) [] [] (fun _ => ⟨[], []⟩) (fun _ => .notAnObject)
          [⟨some "demo", "/s", "t/demo", "t/demo/SKILL.md"⟩]).skills ≠ [] ∧
        ∀ v ∈ (validateImportedSkills (fun _ => none) [] [] (fun _ => ⟨[], []⟩)
            (fun _ => .notAnObject) [⟨some "demo", "/s", "t/demo", "t/demo/SKILL.md"⟩]).skills,
          v.ready = true) :=
  (C4_amended_ok_iff (fun _ => none) [] [] (fun _ => ⟨[], []⟩) (fun _ => .notAnObject)
    [⟨some "demo", "/s", "t/demo", "t/demo/SKILL.md"⟩]).1

/-- C1 fails as stated for a source skill directory whose own base name is
on the import ignore list: fs.cp invokes its ignore filter on the top-level
source path, so the first call reports one imported entry but creates no
destination (the store lookup of the destination name stays empty), and the
second call without overwrite succeeds again with no conflict skip instead
of failing with one. -/
theorem C1_counterexample :
    (importSkills (.resolved ignoredRootDemo "/tmp/dist" []) false (some "t")
        emptyStore).1.ok = true ∧
    ((importSkills (.resolved ignoredRootDemo "/tmp/dist" []) false (some "t")
        emptyStore).2 "demo").isSome = false ∧
    (importSkills (.resolved ignoredRootDemo "/tmp/dist" []) false (some "t")
        (importSkills (.resolved ignoredRootDemo "/tmp/dist" []) false (some "t")
          emptyStore).2).1.ok = true ∧
    (importSkills (.resolved ignoredRootDemo "/tmp/dist" []) false (some "t")
        (importSkills (.resolved ignoredRootDemo "/tmp/dist" []) false (some "t")
          emptyStore).2).1.skipped = [] := by
  decide
